import Mathlib

/-
Verification of the feed-forward training engine (dnn::Network, file
modules/utils/dnn/Network.h) against its design specification.

The Network orchestration code is embedded shallowly: the layer pipeline is a
list of layer states, every call the Network makes into a collaborator (layer
forward/backprop/update, output-head check/evaluate, optimizer reset, callback
field writes and hooks) is recorded as an event in a trace, and C++ exceptions
become an Option Err result carried next to the post-call state.

Collaborators that live outside the embedded sources (concrete layers, the
output head, the RNG and the batch shuffler of Utils/Random.h) are modelled
from the spec's capability contracts; each such definition carries a doc
comment starting with "Modelled from the spec:".
-/

/-- A dense column-major matrix: entries lists the columns one after another.
Observations are columns, matching the spec's Mat abstraction. -/
structure Mat where
  rows : Nat
  cols : Nat
  entries : List Int
deriving DecidableEq, Repr

/-- The empty matrix, the initial content of a layer's caches. -/
def Mat.empty : Mat := ⟨0, 0, []⟩

/-- Column j of a column-major matrix, as a list of scalars. -/
def Mat.col (m : Mat) (j : Nat) : List Int :=
  (m.entries.drop (j * m.rows)).take m.rows

/-- Modelled from the spec: column-subset slicing used for batch extraction
(§6, Mat contract). The selected columns keep the row count. -/
def Mat.selectCols (m : Mat) (idxs : List Nat) : Mat :=
  ⟨m.rows, idxs.length, idxs.flatMap (fun j => m.col j)⟩

/-- Error kinds of the engine, replacing the C++ exceptions (spec §7).
LayerReject i is the error a layer i itself raises from its own
set_parameters when it does not accept the inner vector; NullOutput stands
for dereferencing an absent output head. -/
inductive Err where
  | ShapeMismatch
  | TargetMismatch
  | ParameterCountMismatch
  | LayerReject (i : Nat)
  | NullOutput
deriving DecidableEq, Repr

/-- One observable call the Network makes into a collaborator. -/
inductive Ev where
  | fwd (i : Nat) (input : Mat)
  | bp (i : Nat) (prev grad : Mat)
  | outCheck (target : Mat)
  | outEval (pred target : Mat)
  | upd (i : Nat)
  | optReset
  | cbNBatch (n : Nat)
  | cbNEpoch (n : Nat)
  | cbEpochId (k : Nat)
  | cbBatchId (i : Nat)
  | cbPre (x y : Mat)
  | cbPost (x y : Mat)
deriving DecidableEq, Repr

/-- Modelled from the spec: the immutable part of the Layer capability
contract (§6). Concrete layer math (fully-connected, convolutional, ...) is
external to the embedded sources, so the forward map, backward map, the
optimizer-driven parameter update and the inner-vector acceptance test are
opaque functions. -/
structure LayerBase where
  in_size : Nat
  out_size : Nat
  fwd : Mat → Mat
  bwd : Mat → Mat → Mat
  updFn : List Int → List Int
  accepts : List Int → Bool

/-- Modelled from the spec: a Layer instance holds its contract together with
its mutable state: the last-computed forward output, the last-computed
backward gradient, and its flattened parameters (§3, §6). -/
structure Layer where
  base : LayerBase
  m_output : Mat
  m_bpdata : Mat
  params : List Int

/-- Modelled from the spec: the immutable part of the Output-head capability
contract (§6): target validation and the gradient of the loss in the last
layer's output. -/
structure OutputBase where
  checkTarget : Mat → Bool
  grad : Mat → Mat → Mat

/-- Modelled from the spec: an Output-head instance: contract plus the cached
gradient from its most recent evaluate call. -/
structure OutputHead where
  base : OutputBase
  m_bpdata : Mat

/-- Modelled from the spec: the single authoritative randomness stream (§5).
A deterministic state machine standing for std::mt19937. -/
structure Rng where
  state : Nat
deriving DecidableEq, Repr

/-- Modelled from the spec: one draw from the stream, advancing the state by
a linear congruential step; the draw exposes the state's high bits. -/
def Rng.next (r : Rng) : Nat × Rng :=
  (r.state / 65536, ⟨(r.state * 1103515245 + 12345) % 4294967296⟩)

/-- Insert an element at position n of a list. -/
def insertAt (x : Nat) (n : Nat) (l : List Nat) : List Nat :=
  l.take n ++ x :: l.drop n

/-- Modelled from the spec: shuffling helper; element n is inserted at a
stream-drawn position of the accumulator. -/
def shuffleAux : Nat → List Nat → Rng → List Nat × Rng
  | 0, acc, r => (acc, r)
  | n + 1, acc, r =>
      let (d, r') := r.next
      shuffleAux n (insertAt n (d % (acc.length + 1)) acc) r'

/-- Modelled from the spec: a random permutation of the sample indices
0..n-1, drawn from the randomness stream (§4.4 step 3). -/
def shuffleIdx (n : Nat) (r : Rng) : List Nat × Rng :=
  shuffleAux n [] r

/-- Slicing helper with explicit fuel; the fuel is the list length. -/
def chunksAux : Nat → Nat → List Nat → List (List Nat)
  | 0, _, _ => []
  | _, _, [] => []
  | fuel + 1, bsz, l => l.take bsz :: chunksAux fuel bsz (l.drop bsz)

/-- Modelled from the spec: slice a list into contiguous groups of bsz; the
final group may be short (§4.4 step 3). -/
def chunks (bsz : Nat) (l : List Nat) : List (List Nat) :=
  chunksAux l.length bsz l

/-- Modelled from the spec: internal::create_shuffled_batches (Utils/Random.h
is outside the embedded sources). Draws one permutation of the sample
indices, slices it into groups of bsz, and extracts the matching column
subsets of x and y; returns the batches, the index groups, and the advanced
randomness state. -/
def create_shuffled_batches (x y : Mat) (bsz : Nat) (r : Rng) :
    List Mat × List Mat × List (List Nat) × Rng :=
  let (perm, r') := shuffleIdx x.cols r
  let bs := chunks bsz perm
  (bs.map (fun b => x.selectCols b), bs.map (fun b => y.selectCols b), bs, r')

/-- The network: the ordered layer pipeline m_layers, the optional output
head m_output (NULL in a default-constructed network), and the randomness
source m_rng. -/
structure Network where
  layers : List Layer
  m_output : Option OutputHead
  rng : Rng

/-- Network::num_layers. -/
def Network.num_layers (net : Network) : Nat :=
  net.layers.length

/-- Adjacent-pair size test of Network::check_unit_sizes: layer i+1's
declared input size must equal layer i's declared output size. -/
def adjOk : List Layer → Bool
  | a :: b :: rest => (b.base.in_size == a.base.out_size) && adjOk (b :: rest)
  | _ => true

/-- Network::check_unit_sizes: trivially valid below two layers, otherwise a
ShapeMismatch as soon as an adjacent pair disagrees. The method is const, so
it returns no new network state. -/
def Network.check_unit_sizes (net : Network) : Option Err :=
  if net.num_layers ≤ 1 then none
  else if adjOk net.layers then none
  else some Err.ShapeMismatch

/-- The layer-by-layer loop of Network::forward: layer i receives the output
its predecessor just cached, computes and caches its own output, and the call
is recorded; i is the index of the head layer. -/
def forwardChain : List Layer → Mat → Nat → List Layer × List Ev
  | [], _, _ => ([], [])
  | l :: rest, x, i =>
      let o := l.base.fwd x
      let (rest', evs) := forwardChain rest o (i + 1)
      ({ l with m_output := o } :: rest', Ev.fwd i x :: evs)

/-- Network::forward: a no-op on an empty pipeline; a ShapeMismatch when the
input's row count differs from layer 0's declared input size; otherwise layer
0 runs on the input and each later layer on its predecessor's cached output. -/
def Network.forward (net : Network) (input : Mat) : Network × List Ev × Option Err :=
  match net.layers with
  | [] => (net, [], none)
  | l0 :: _ =>
      if input.rows = l0.base.in_size then
        let (ls, evs) := forwardChain net.layers input 0
        ({ net with layers := ls }, evs, none)
      else
        (net, [], some Err.ShapeMismatch)

/-- The reverse loop of Network::backprop over the reversed pipeline: the
head of the list is layer idx, the next element is layer idx-1; layer idx
consumes its predecessor's cached forward output and the gradient g its
successor just produced, caches its own gradient, and the call is recorded;
layer 0 consumes the original input instead. -/
def backChain : List Layer → Mat → Mat → Nat → List Layer × List Ev
  | [], _, _, _ => ([], [])
  | [l0], g, input, _ =>
      ([{ l0 with m_bpdata := l0.base.bwd input g }], [Ev.bp 0 input g])
  | l :: lp :: rest, g, input, idx =>
      let gi := l.base.bwd lp.m_output g
      let (rest', evs) := backChain (lp :: rest) gi input (idx - 1)
      ({ l with m_bpdata := gi } :: rest', Ev.bp idx lp.m_output g :: evs)

/-- Network::backprop: returns at once on an empty pipeline; otherwise the
output head validates the target and evaluates the last layer's cached
output against it, then the layers run backward from the last to the first. -/
def Network.backprop (net : Network) (input target : Mat) :
    Network × List Ev × Option Err :=
  match net.layers with
  | [] => (net, [], none)
  | _ :: _ =>
      match net.m_output with
      | none => (net, [], some Err.NullOutput)
      | some out =>
          match net.layers.reverse with
          | [] => (net, [], none)
          | last :: rtl =>
              if out.base.checkTarget target then
                let g := out.base.grad last.m_output target
                let out' := { out with m_bpdata := g }
                let (rls, evs) := backChain (last :: rtl) g input (net.num_layers - 1)
                ({ net with layers := rls.reverse, m_output := some out' },
                 Ev.outCheck target :: Ev.outEval last.m_output target :: evs, none)
              else
                (net, [Ev.outCheck target], some Err.TargetMismatch)

/-- The loop of Network::update: each layer in pipeline order applies the
optimizer's rule to its own parameters. -/
def updChain : List Layer → Nat → List Layer × List Ev
  | [], _ => ([], [])
  | l :: rest, i =>
      let (rest', evs) := updChain rest (i + 1)
      ({ l with params := l.base.updFn l.params } :: rest', Ev.upd i :: evs)

/-- Network::update. -/
def Network.update (net : Network) : Network × List Ev :=
  let (ls, evs) := updChain net.layers 0
  ({ net with layers := ls }, evs)

/-- Network::get_parameters: the layers' flattened parameter vectors in
pipeline order. -/
def Network.get_parameters (net : Network) : List (List Int) :=
  net.layers.map (fun l => l.params)

/-- The loop of Network::set_parameters: vector i goes to layer i; a layer
that does not accept its vector raises, stopping the loop with the earlier
layers already updated. -/
def setChain : List Layer → List (List Int) → Nat → List Layer × Option Err
  | [], _, _ => ([], none)
  | ls, [], _ => (ls, none)
  | l :: rest, v :: vs, i =>
      if l.base.accepts v then
        let (rest', e) := setChain rest vs (i + 1)
        ({ l with params := v } :: rest', e)
      else
        (l :: rest, some (Err.LayerReject i))

/-- Network::set_parameters: a ParameterCountMismatch when the outer count
differs from the layer count, otherwise the per-layer loop. -/
def Network.set_parameters (net : Network) (vs : List (List Int)) :
    Network × Option Err :=
  if vs.length = net.num_layers then
    let (ls, e) := setChain net.layers vs 0
    ({ net with layers := ls }, e)
  else
    (net, some Err.ParameterCountMismatch)

/-- The inner loop of Network::fit: for each mini-batch, the callback is told
the batch index, the pre-training hook runs, then forward, backprop and
update, then the post-training hook; an exception escapes the loop. -/
def batchLoop : Network → List Mat → List Mat → Nat →
    Network × List Ev × Option Err
  | net, bx :: xr, byM :: yr, i =>
      let pre := [Ev.cbBatchId i, Ev.cbPre bx byM]
      let (net1, ef, e1) := net.forward bx
      match e1 with
      | some err => (net1, pre ++ ef, some err)
      | none =>
          let (net2, eb, e2) := net1.backprop bx byM
          match e2 with
          | some err => (net2, pre ++ ef ++ eb, some err)
          | none =>
              let (net3, eu) := net2.update
              let (net4, er, e4) := batchLoop net3 xr yr (i + 1)
              (net4, (pre ++ ef ++ eb ++ eu ++ [Ev.cbPost bx byM]) ++ er, e4)
  | net, _, _, _ => (net, [], none)

/-- The outer loop of Network::fit: k is the next epoch index and the second
Nat the number of epochs still to run; each epoch sets the callback's epoch
index and trains on every mini-batch. -/
def epochLoop : Network → List Mat → List Mat → Nat → Nat →
    Network × List Ev × Option Err
  | net, _, _, _, 0 => (net, [], none)
  | net, xbs, ybs, k, r + 1 =>
      let (net1, evs, e1) := batchLoop net xbs ybs 0
      match e1 with
      | some err => (net1, Ev.cbEpochId k :: evs, some err)
      | none =>
          let (net2, evs2, e2) := epochLoop net1 xbs ybs (k + 1) r
          (net2, (Ev.cbEpochId k :: evs) ++ evs2, e2)

/-- Network::fit: fails (returns false) at once on an empty pipeline; else
resets the optimizer, reseeds when seed is positive, creates the shuffled
mini-batches once, tells the callback the batch and epoch counts, and runs
the epoch loop; returns true after the loop. The final Bool is the return
value, meaningful when no exception (the Option Err) escaped. -/
def Network.fit (net : Network) (x y : Mat) (bsz epoch : Nat) (seed : Int) :
    Network × List Ev × Option Err × Bool :=
  match net.layers with
  | [] => (net, [], none, false)
  | _ :: _ =>
      let r1 := if seed > 0 then Rng.mk seed.toNat else net.rng
      let cb := create_shuffled_batches x y bsz r1
      let xbs := cb.1
      let ybs := cb.2.1
      let net0 := { net with rng := cb.2.2.2 }
      let (net1, evs, e) := epochLoop net0 xbs ybs 0 epoch
      (net1, Ev.optReset :: Ev.cbNBatch xbs.length :: Ev.cbNEpoch epoch :: evs,
       e, true)

/-- Network::predict: an empty result on an empty pipeline, otherwise one
forward pass and the last layer's cached output. -/
def Network.predict (net : Network) (x : Mat) :
    Network × List Ev × Option Err × Mat :=
  match net.layers with
  | [] => (net, [], none, Mat.empty)
  | _ :: _ =>
      let (net1, evs, e) := net.forward x
      (net1, evs, e,
       (net1.layers.reverse.head?.map (fun l => l.m_output)).getD Mat.empty)

/-- The pipeline's immutable layer contracts, in order. -/
def bases (ls : List Layer) : List LayerBase :=
  ls.map (fun l => l.base)

/-- The chain of forward outputs a pipeline produces from an input: layer 0's
output is computed from the input, every later layer's from its predecessor's
output. -/
def chainOuts : List LayerBase → Mat → List Mat
  | [], _ => []
  | b :: rest, x => b.fwd x :: chainOuts rest (b.fwd x)

/-- The forward-call trace the spec prescribes, starting at layer index i:
layer i is invoked on x, each later layer on the output just before it. -/
def fwdTraceFrom : List LayerBase → Mat → Nat → List Ev
  | [], _, _ => []
  | b :: rest, x, i => Ev.fwd i x :: fwdTraceFrom rest (b.fwd x) (i + 1)

/-- The forward-call trace the spec prescribes for a whole pipeline. -/
def fwdSpecTrace (bs : List LayerBase) (input : Mat) : List Ev :=
  fwdTraceFrom bs input 0

/-- The backward-call trace the spec prescribes, over the reversed pipeline
and the reversed forward-output chain: the head layer (index idx) is invoked
on its predecessor's forward output and the gradient g its successor just
produced; the bottom layer (index 0) is invoked on the original input. -/
def bpTraceFrom : List LayerBase → List Mat → Mat → Mat → Nat → List Ev
  | [_], _, g, input, _ => [Ev.bp 0 input g]
  | b :: b' :: brest, _ :: o' :: orest, g, input, idx =>
      Ev.bp idx o' g :: bpTraceFrom (b' :: brest) (o' :: orest) (b.bwd o' g) input (idx - 1)
  | _, _, _, _, _ => []

/-- The whole backward trace the spec prescribes for backprop on a pipeline
whose forward pass just ran on input: the output head checks the target and
evaluates the last forward output against it, then the layers run backward
from index L-1 down to 0 with the prescribed arguments. -/
def bpSpecTrace (bs : List LayerBase) (ob : OutputBase) (input target : Mat) : List Ev :=
  let os := chainOuts bs input
  let lastOut := os.getLast?.getD Mat.empty
  let g := ob.grad lastOut target
  Ev.outCheck target :: Ev.outEval lastOut target ::
    bpTraceFrom bs.reverse os.reverse g input (bs.length - 1)

/-- The update-call trace the spec prescribes: every layer in pipeline
order. -/
def updSpecTrace (n : Nat) : List Ev :=
  (List.range n).map Ev.upd

/-- The trace the spec prescribes for training on one mini-batch: callback
batch index, pre-training hook, forward pass, backward pass, optimizer
update, post-training hook. -/
def batchSpecEvs (bs : List LayerBase) (ob : OutputBase) (bx byM : Mat) (i : Nat) : List Ev :=
  Ev.cbBatchId i :: Ev.cbPre bx byM ::
    (fwdSpecTrace bs bx ++ bpSpecTrace bs ob bx byM ++ updSpecTrace bs.length ++
     [Ev.cbPost bx byM])

/-- The trace the spec prescribes for one epoch's mini-batches, starting at
batch index i. -/
def batchesSpecFrom (bs : List LayerBase) (ob : OutputBase) :
    List Mat → List Mat → Nat → List Ev
  | bx :: xr, byM :: yr, i => batchSpecEvs bs ob bx byM i ++ batchesSpecFrom bs ob xr yr (i + 1)
  | _, _, _ => []

/-- The whole trace the spec prescribes for fit: optimizer reset, callback
told the batch and epoch counts, then for each epoch the callback's epoch
index followed by every mini-batch's trace. -/
def fitSpecEvs (bs : List LayerBase) (ob : OutputBase) (xbs ybs : List Mat)
    (epoch : Nat) : List Ev :=
  Ev.optReset :: Ev.cbNBatch xbs.length :: Ev.cbNEpoch epoch ::
    (List.range epoch).flatMap (fun k => Ev.cbEpochId k :: batchesSpecFrom bs ob xbs ybs 0)

/-- The predictor matrices handed to the pre-training hook, in call order:
the mini-batch composition each training step actually consumed. -/
def preXArgs (evs : List Ev) : List Mat :=
  evs.filterMap (fun e => match e with | Ev.cbPre bx _ => some bx | _ => none)

/-- Overwrite each layer's forward cache with the matching value of a list;
layers beyond the list keep their cache. -/
def writeOuts : List Layer → List Mat → List Layer
  | l :: ls, o :: os => { l with m_output := o } :: writeOuts ls os
  | ls, _ => ls

theorem chainOuts_length (bs : List LayerBase) (x : Mat) :
    (chainOuts bs x).length = bs.length := by
  induction bs generalizing x with
  | nil => rfl
  | cons b rest ih => simp [chainOuts, ih]

theorem writeOuts_bases (ls : List Layer) (os : List Mat) :
    bases (writeOuts ls os) = bases ls := by
  induction ls generalizing os with
  | nil => cases os <;> rfl
  | cons l tl ih =>
      cases os with
      | nil => rfl
      | cons o os =>
          have h := ih os
          simp only [writeOuts, bases, List.map_cons] at h ⊢
          rw [h]

theorem writeOuts_params (ls : List Layer) (os : List Mat) :
    (writeOuts ls os).map (fun l => l.params) = ls.map (fun l => l.params) := by
  induction ls generalizing os with
  | nil => cases os <;> rfl
  | cons l tl ih =>
      cases os with
      | nil => rfl
      | cons o os => simp [writeOuts, ih]

theorem writeOuts_m_output (ls : List Layer) (os : List Mat)
    (h : os.length = ls.length) :
    (writeOuts ls os).map (fun l => l.m_output) = os := by
  induction ls generalizing os with
  | nil => cases os with
      | nil => rfl
      | cons o os => simp at h
  | cons l tl ih =>
      cases os with
      | nil => simp at h
      | cons o os =>
          simp at h
          simp [writeOuts, ih os h]

theorem writeOuts_length (ls : List Layer) (os : List Mat) :
    (writeOuts ls os).length = ls.length := by
  induction ls generalizing os with
  | nil => cases os <;> rfl
  | cons l tl ih =>
      cases os with
      | nil => rfl
      | cons o os => simp [writeOuts, ih]

theorem forwardChain_spec (ls : List Layer) (x : Mat) (i : Nat) :
    forwardChain ls x i =
      (writeOuts ls (chainOuts (bases ls) x), fwdTraceFrom (bases ls) x i) := by
  induction ls generalizing x i with
  | nil => rfl
  | cons l tl ih =>
      simp [forwardChain, chainOuts, bases, writeOuts, fwdTraceFrom, ih]

theorem forward_spec (net : Network) (input : Mat) (l0 : Layer) (tl : List Layer)
    (hl : net.layers = l0 :: tl) (hr : input.rows = l0.base.in_size) :
    net.forward input =
      ({ net with layers := writeOuts net.layers (chainOuts (bases net.layers) input) },
       fwdSpecTrace (bases net.layers) input, none) := by
  unfold Network.forward
  rw [hl]
  simp [hr, forwardChain_spec, fwdSpecTrace, hl]

theorem backChain_trace (ls : List Layer) (g input : Mat) (idx : Nat) :
    (backChain ls g input idx).2 =
      bpTraceFrom (bases ls) (ls.map (fun l => l.m_output)) g input idx := by
  induction ls generalizing g idx with
  | nil => rfl
  | cons l rest ih =>
      cases rest with
      | nil => rfl
      | cons lp rest2 => simp [backChain, bpTraceFrom, bases, ih]

theorem backChain_bases (ls : List Layer) (g input : Mat) (idx : Nat) :
    bases (backChain ls g input idx).1 = bases ls := by
  induction ls generalizing g idx with
  | nil => rfl
  | cons l rest ih =>
      cases rest with
      | nil => rfl
      | cons lp rest2 =>
          have h := ih (l.base.bwd lp.m_output g) (idx - 1)
          simp only [bases, List.map_cons] at h
          simp [backChain, bases, h]

theorem backprop_spec (net : Network) (out : OutputHead) (input target : Mat)
    (hne : net.layers ≠ [])
    (hout : net.m_output = some out)
    (hcache : net.layers.map (fun l => l.m_output) = chainOuts (bases net.layers) input)
    (hchk : out.base.checkTarget target = true) :
    (net.backprop input target).2 =
      (bpSpecTrace (bases net.layers) out.base input target, none) ∧
    bases (net.backprop input target).1.layers = bases net.layers ∧
    (∃ g, (net.backprop input target).1.m_output = some ⟨out.base, g⟩) ∧
    (net.backprop input target).1.rng = net.rng := by
  obtain ⟨ls, mo, r⟩ := net
  simp only at hout hcache hne ⊢
  subst hout
  cases hls : ls with
  | nil => exact absurd hls hne
  | cons l0 tl0 =>
      subst hls
      cases hrev : (l0 :: tl0).reverse with
      | nil => simp at hrev
      | cons last rtl =>
          have hlast : (l0 :: tl0).getLast? = some last := by
            rw [← List.head?_reverse, hrev]
            rfl
          unfold Network.backprop
          simp only [Network.num_layers]
          rw [hrev]
          simp only [hchk, if_true]
          have hlastOut :
              ((chainOuts (bases (l0 :: tl0)) input).getLast?.getD Mat.empty) =
                last.m_output := by
            rw [← hcache, List.getLast?_map, hlast]
            rfl
          refine ⟨?_, ?_, ⟨_, rfl⟩, by trivial⟩
          · simp only [bpSpecTrace, backChain_trace]
            rw [hlastOut]
            have h1 : bases ((l0 :: tl0).reverse) = (bases (l0 :: tl0)).reverse := by
              simp [bases]
            have h2 : ((l0 :: tl0).reverse).map (fun l => l.m_output) =
                (chainOuts (bases (l0 :: tl0)) input).reverse := by
              rw [← hcache]
              simp
            rw [← hrev, h1, h2]
            simp [bases]
          · have h1 : bases (last :: rtl) = (bases (l0 :: tl0)).reverse := by
              rw [← hrev]
              simp [bases]
            have h2 := backChain_bases (last :: rtl)
              (out.base.grad last.m_output target) input ((l0 :: tl0).length - 1)
            simp only [bases] at h1 h2 ⊢
            rw [List.map_reverse, h2, h1, List.reverse_reverse]

/-- C1: after forward just ran on the same input, backprop invokes the output
head's check and evaluate and then the layers' backward operations strictly
in reverse index order L-1..0 with exactly the prescribed arguments: the last
layer on its predecessor's cached forward output and the output gradient,
each interior layer on its predecessor's cached forward output and its
successor's just-produced gradient, and layer 0 on the original input; with a
single layer, that layer runs on the original input and the output gradient
and backprop terminates. -/
theorem C1_backprop_reverse_order (net : Network) (input target : Mat)
    (l0 : Layer) (tl : List Layer) (out : OutputHead)
    (hl : net.layers = l0 :: tl) (hout : net.m_output = some out)
    (hr : input.rows = l0.base.in_size)
    (hchk : out.base.checkTarget target = true) :
    ((net.forward input).1.backprop input target).2 =
      (bpSpecTrace (bases net.layers) out.base input target, none) := by
  rw [forward_spec net input l0 tl hl hr]
  have hb := backprop_spec
    { net with layers := writeOuts net.layers (chainOuts (bases net.layers) input) }
    out input target
    (by
      simp only []
      intro h
      have := congrArg List.length h
      rw [writeOuts_length, hl] at this
      simp at this)
    (by simpa using hout)
    (by
      simp only [writeOuts_bases]
      exact writeOuts_m_output net.layers (chainOuts (bases net.layers) input)
        (by rw [chainOuts_length]; simp [bases]))
    hchk
  rw [hb.1]
  simp [writeOuts_bases]

/-- C2: forward is a no-op on an empty pipeline; on a non-empty pipeline it
fails with ShapeMismatch exactly when the input's row count differs from
layer 0's declared input size, and otherwise invokes layer 0's forward on the
input and every later layer's forward on its predecessor's just-cached
output, in increasing index order. -/
theorem C2_forward_contract (net : Network) (input : Mat) :
    (net.layers = [] → net.forward input = (net, [], none)) ∧
    (∀ l0 tl, net.layers = l0 :: tl → input.rows ≠ l0.base.in_size →
      net.forward input = (net, [], some Err.ShapeMismatch)) ∧
    (∀ l0 tl, net.layers = l0 :: tl → input.rows = l0.base.in_size →
      (net.forward input).2 = (fwdSpecTrace (bases net.layers) input, none)) := by
  refine ⟨?_, ?_, ?_⟩
  · intro h
    unfold Network.forward
    rw [h]
  · intro l0 tl h hne
    unfold Network.forward
    rw [h]
    simp [hne]
  · intro l0 tl h hr
    rw [forward_spec net input l0 tl h hr]

/-- A concrete layer contract used by the witnesses: forward bumps every
entry and reshapes to the declared output size, backward concatenates, update
doubles the parameters, and exactly the two-element inner vectors are
accepted. -/
def wLB (n m : Nat) : LayerBase :=
  ⟨n, m, fun x => ⟨m, x.cols, x.entries.map (fun e => e + 1)⟩,
   fun p g => ⟨p.rows, p.cols, p.entries ++ g.entries⟩,
   fun p => p.map (fun e => e * 2), fun v => v.length == 2⟩

/-- A concrete layer for the witnesses. -/
def wLayer (n m : Nat) : Layer := ⟨wLB n m, Mat.empty, Mat.empty, [1, 2]⟩

/-- A concrete output head for the witnesses: accepts one-column targets and
uses the entrywise difference as gradient. -/
def wOut : OutputHead :=
  ⟨⟨fun t => t.cols == 1,
    fun p t => ⟨p.rows, p.cols, p.entries.zipWith (fun u w => u - w) t.entries⟩⟩,
   Mat.empty⟩

/-- A concrete two-layer network for the witnesses. -/
def wNet : Network := ⟨[wLayer 2 3, wLayer 3 2], some wOut, ⟨5⟩⟩

/-- A concrete input for the witnesses. -/
def wIn : Mat := ⟨2, 1, [5, 6]⟩

/-- A concrete target for the witnesses. -/
def wTgt : Mat := ⟨2, 1, [1, 1]⟩

theorem C1_backprop_reverse_order_witness :
    ((wNet.forward wIn).1.backprop wIn wTgt).2 =
      (bpSpecTrace (bases wNet.layers) wOut.base wIn wTgt, none) :=
  C1_backprop_reverse_order wNet wIn wTgt (wLayer 2 3) [wLayer 3 2] wOut
    rfl rfl rfl (by decide)

theorem C2_forward_contract_witness :
    (Network.forward ⟨[], none, ⟨1⟩⟩ wIn = (⟨[], none, ⟨1⟩⟩, [], none)) ∧
    (Network.forward ⟨[wLayer 3 2], none, ⟨1⟩⟩ wIn =
      (⟨[wLayer 3 2], none, ⟨1⟩⟩, [], some Err.ShapeMismatch)) ∧
    ((Network.forward wNet wIn).2 = (fwdSpecTrace (bases wNet.layers) wIn, none)) :=
  ⟨(C2_forward_contract _ wIn).1 rfl,
   (C2_forward_contract _ wIn).2.1 (wLayer 3 2) [] rfl (by decide),
   (C2_forward_contract wNet wIn).2.2 (wLayer 2 3) [wLayer 3 2] rfl rfl⟩

/-- C9: backprop on a network with zero layers returns immediately: no event
is recorded, so in particular neither check_target_data nor evaluate runs on
the output head, and this holds even when the output handle is absent as in a
default-constructed network. -/
theorem C9_backprop_empty_safe (net : Network) (input target : Mat)
    (h : net.layers = []) :
    net.backprop input target = (net, [], none) := by
  unfold Network.backprop
  rw [h]

theorem C9_backprop_empty_safe_witness :
    Network.backprop ⟨[], none, ⟨1⟩⟩ wIn wTgt = (⟨[], none, ⟨1⟩⟩, [], none) :=
  C9_backprop_empty_safe ⟨[], none, ⟨1⟩⟩ wIn wTgt rfl

theorem adjOk_false_iff (ls : List Layer) :
    adjOk ls = false ↔
      ∃ i a b, ls[i]? = some a ∧ ls[i+1]? = some b ∧
        a.base.out_size ≠ b.base.in_size := by
  induction ls with
  | nil =>
      constructor
      · intro h
        simp [adjOk] at h
      · rintro ⟨i, a, b, h1, h2, h3⟩
        simp at h1
  | cons a tl ih =>
      cases tl with
      | nil =>
          constructor
          · intro h
            simp [adjOk] at h
          · rintro ⟨i, a', b', h1, h2, h3⟩
            cases i with
            | zero => simp at h2
            | succ j => simp at h1
      | cons b tl2 =>
          constructor
          · intro h
            simp only [adjOk, Bool.and_eq_false_iff, beq_eq_false_iff_ne] at h
            rcases h with hne | h2
            · exact ⟨0, a, b, rfl, by simp, fun he => hne he.symm⟩
            · obtain ⟨i, a', b', h1, h2, h3⟩ := ih.mp h2
              exact ⟨i + 1, a', b', by simpa using h1, by simpa using h2, h3⟩
          · rintro ⟨i, a', b', h1, h2, h3⟩
            simp only [adjOk, Bool.and_eq_false_iff, beq_eq_false_iff_ne]
            cases i with
            | zero =>
                simp at h1 h2
                subst h1
                subst h2
                exact Or.inl (fun he => h3 he.symm)
            | succ j =>
                refine Or.inr (ih.mpr ⟨j, a', b', ?_, ?_, h3⟩)
                · simpa using h1
                · simpa using h2

/-- C5: check_unit_sizes succeeds trivially on pipelines of at most one
layer; it fails with ShapeMismatch exactly when some adjacent pair has layer
i's output width different from layer i+1's input width; no other outcome is
possible, and being a const operation it takes and returns no network
state. -/
theorem C5_check_unit_sizes_contract (net : Network) :
    (net.num_layers ≤ 1 → net.check_unit_sizes = none) ∧
    (net.check_unit_sizes = some Err.ShapeMismatch ↔
      ∃ i a b, net.layers[i]? = some a ∧ net.layers[i+1]? = some b ∧
        a.base.out_size ≠ b.base.in_size) ∧
    (net.check_unit_sizes = none ∨ net.check_unit_sizes = some Err.ShapeMismatch) := by
  refine ⟨?_, ?_, ?_⟩
  · intro h
    unfold Network.check_unit_sizes
    simp [h]
  · unfold Network.check_unit_sizes
    by_cases h1 : net.num_layers ≤ 1
    · simp only [h1, if_true]
      constructor
      · intro h
        exact absurd h (by simp)
      · rintro ⟨i, a, b, ha, hb, hne⟩
        have hlen : net.layers.length ≤ i + 1 := by
          have := h1
          unfold Network.num_layers at this
          omega
        rw [List.getElem?_eq_none hlen] at hb
        cases hb
    · simp only [h1, if_false]
      by_cases h2 : adjOk net.layers
      · simp only [h2, if_true]
        constructor
        · intro h
          cases h
        · intro h
          have := (adjOk_false_iff net.layers).mpr h
          rw [h2] at this
          cases this
      · have h3 : adjOk net.layers = false := by
          cases hv : adjOk net.layers
          · rfl
          · exact absurd hv h2
        simp only [h3, Bool.false_eq_true, if_false]
        constructor
        · intro _
          exact (adjOk_false_iff net.layers).mp h3
        · intro _
          trivial
  · unfold Network.check_unit_sizes
    by_cases h1 : net.num_layers ≤ 1
    · simp [h1]
    · by_cases h2 : adjOk net.layers
      · simp [h1, h2]
      · simp [h1, h2]

theorem C5_check_unit_sizes_contract_witness :
    (Network.num_layers ⟨[wLayer 2 3], none, ⟨1⟩⟩ ≤ 1 →
      Network.check_unit_sizes ⟨[wLayer 2 3], none, ⟨1⟩⟩ = none) ∧
    (Network.check_unit_sizes ⟨[wLayer 2 3, wLayer 4 2], none, ⟨1⟩⟩ =
      some Err.ShapeMismatch ↔
      ∃ i a b, [wLayer 2 3, wLayer 4 2][i]? = some a ∧
        [wLayer 2 3, wLayer 4 2][i+1]? = some b ∧
        a.base.out_size ≠ b.base.in_size) :=
  ⟨(C5_check_unit_sizes_contract ⟨[wLayer 2 3], none, ⟨1⟩⟩).1,
   (C5_check_unit_sizes_contract ⟨[wLayer 2 3, wLayer 4 2], none, ⟨1⟩⟩).2.1⟩

theorem setChain_no_pcm (ls : List Layer) (vs : List (List Int)) (i : Nat) :
    (setChain ls vs i).2 ≠ some Err.ParameterCountMismatch := by
  induction ls generalizing vs i with
  | nil => simp [setChain]
  | cons l tl ih =>
      cases vs with
      | nil => simp [setChain]
      | cons v vr =>
          by_cases h : l.base.accepts v
          · simpa [setChain, h] using ih vr (i + 1)
          · simp [setChain, h]

theorem setChain_err (ls : List Layer) (vs : List (List Int)) (i : Nat) :
    (setChain ls vs i).2 = none ∨
    ∃ (j : Nat) (l : Layer) (v : List Int), ls[j]? = some l ∧ vs[j]? = some v ∧
      l.base.accepts v = false ∧
      (setChain ls vs i).2 = some (Err.LayerReject (i + j)) := by
  induction ls generalizing vs i with
  | nil => simp [setChain]
  | cons l tl ih =>
      cases vs with
      | nil => simp [setChain]
      | cons v vr =>
          by_cases h : l.base.accepts v
          · rcases ih vr (i + 1) with hnone | ⟨j, l', v', h1, h2, h3, h4⟩
            · left
              simpa [setChain, h] using hnone
            · right
              refine ⟨j + 1, l', v', by simpa using h1, by simpa using h2, h3, ?_⟩
              have : i + 1 + j = i + (j + 1) := by omega
              rw [← this]
              simpa [setChain, h] using h4
          · right
            refine ⟨0, l, v, by simp, by simp, by simpa using h, ?_⟩
            simp [setChain, h]

/-- C7: set_parameters fails with ParameterCountMismatch exactly when the
outer sequence length differs from the layer count; when the outer count
matches, the only possible failure is a layer's own rejection of its inner
vector — set_parameters itself detects nothing further. -/
theorem C7_set_parameters_count (net : Network) (vs : List (List Int)) :
    ((net.set_parameters vs).2 = some Err.ParameterCountMismatch ↔
      vs.length ≠ net.num_layers) ∧
    (vs.length = net.num_layers →
      (net.set_parameters vs).2 = none ∨
      ∃ (j : Nat) (l : Layer) (v : List Int), net.layers[j]? = some l ∧
        vs[j]? = some v ∧ l.base.accepts v = false ∧
        (net.set_parameters vs).2 = some (Err.LayerReject j)) := by
  constructor
  · constructor
    · intro h
      intro hlen
      unfold Network.set_parameters at h
      rw [if_pos hlen] at h
      exact setChain_no_pcm net.layers vs 0 h
    · intro hlen
      unfold Network.set_parameters
      rw [if_neg hlen]
  · intro hlen
    unfold Network.set_parameters
    rw [if_pos hlen]
    simpa using setChain_err net.layers vs 0

theorem C7_set_parameters_count_witness :
    ((Network.set_parameters wNet []).2 = some Err.ParameterCountMismatch ↔
      List.length ([] : List (List Int)) ≠ wNet.num_layers) ∧
    (List.length [[3, 4], [5, 6]] = wNet.num_layers →
      (Network.set_parameters wNet [[3, 4], [5, 6]]).2 = none ∨
      ∃ (j : Nat) (l : Layer) (v : List Int), wNet.layers[j]? = some l ∧
        ([[3, 4], [5, 6]] : List (List Int))[j]? = some v ∧
        l.base.accepts v = false ∧
        (Network.set_parameters wNet [[3, 4], [5, 6]]).2 =
          some (Err.LayerReject j)) :=
  ⟨(C7_set_parameters_count wNet []).1,
   (C7_set_parameters_count wNet [[3, 4], [5, 6]]).2⟩

theorem setChain_roundtrip (ls : List Layer) (vs : List (List Int)) (i : Nat)
    (hlen : vs.length = ls.length)
    (hacc : ∀ (j : Nat) (l : Layer) (v : List Int), ls[j]? = some l →
      vs[j]? = some v → l.base.accepts v = true) :
    (setChain ls vs i).2 = none ∧
    (setChain ls vs i).1.map (fun l => l.params) = vs := by
  induction ls generalizing vs i with
  | nil =>
      cases vs with
      | nil => simp [setChain]
      | cons v vr => simp at hlen
  | cons l tl ih =>
      cases vs with
      | nil => simp at hlen
      | cons v vr =>
          have h0 : l.base.accepts v = true := hacc 0 l v (by simp) (by simp)
          have hlen' : vr.length = tl.length := by simpa using hlen
          have hacc' : ∀ (j : Nat) (l' : Layer) (v' : List Int), tl[j]? = some l' →
              vr[j]? = some v' → l'.base.accepts v' = true := by
            intro j l' v' h1 h2
            exact hacc (j + 1) l' v' (by simpa using h1) (by simpa using h2)
          have := ih vr (i + 1) hlen' hacc'
          constructor
          · simpa [setChain, h0] using this.1
          · simpa [setChain, h0] using this.2

/-- C8: when the outer count equals the layer count and every layer accepts
its inner vector, set_parameters succeeds and a following get_parameters
returns exactly the values that were set, for every layer. -/
theorem C8_set_get_roundtrip (net : Network) (vs : List (List Int))
    (hlen : vs.length = net.num_layers)
    (hacc : ∀ (j : Nat) (l : Layer) (v : List Int), net.layers[j]? = some l →
      vs[j]? = some v → l.base.accepts v = true) :
    (net.set_parameters vs).2 = none ∧
    ((net.set_parameters vs).1).get_parameters = vs := by
  unfold Network.set_parameters
  rw [if_pos hlen]
  have h := setChain_roundtrip net.layers vs 0
    (by simpa [Network.num_layers] using hlen) hacc
  exact ⟨h.1, by simpa [Network.get_parameters] using h.2⟩

theorem C8_set_get_roundtrip_witness :
    (Network.set_parameters wNet [[3, 4], [5, 6]]).2 = none ∧
    ((Network.set_parameters wNet [[3, 4], [5, 6]]).1).get_parameters =
      [[3, 4], [5, 6]] :=
  C8_set_get_roundtrip wNet [[3, 4], [5, 6]] rfl (by
    intro j l v h1 h2
    cases j with
    | zero =>
        simp [wNet] at h1
        simp at h2
        subst h1
        subst h2
        decide
    | succ j' =>
        cases j' with
        | zero =>
            simp [wNet] at h1
            simp at h2
            subst h1
            subst h2
            decide
        | succ j2 => simp [wNet] at h1)

theorem setChain_first_reject (ls : List Layer) (vs : List (List Int)) (i j : Nat)
    (hlen : vs.length = ls.length) (l : Layer) (v : List Int)
    (hl : ls[j]? = some l) (hv : vs[j]? = some v)
    (hrej : l.base.accepts v = false)
    (hbefore : ∀ (k : Nat), k < j → ∀ (l' : Layer) (v' : List Int),
      ls[k]? = some l' → vs[k]? = some v' → l'.base.accepts v' = true) :
    (setChain ls vs i).2 = some (Err.LayerReject (i + j)) ∧
    (setChain ls vs i).1.map (fun l => l.params) =
      vs.take j ++ (ls.map (fun l => l.params)).drop j := by
  induction ls generalizing vs i j with
  | nil => simp at hl
  | cons a tl ih =>
      cases vs with
      | nil => simp at hlen
      | cons w wr =>
          cases j with
          | zero =>
              simp at hl hv
              subst hl
              subst hv
              constructor
              · simp [setChain, hrej]
              · simp [setChain, hrej]
          | succ j' =>
              have h0 : a.base.accepts w = true :=
                hbefore 0 (Nat.succ_pos j') a w (by simp) (by simp)
              have hlen' : wr.length = tl.length := by simpa using hlen
              have hl' : tl[j']? = some l := by simpa using hl
              have hv' : wr[j']? = some v := by simpa using hv
              have hbefore' : ∀ (k : Nat), k < j' → ∀ (l' : Layer) (v' : List Int),
                  tl[k]? = some l' → wr[k]? = some v' →
                  l'.base.accepts v' = true := by
                intro k hk l' v' h1 h2
                exact hbefore (k + 1) (by omega) l' v'
                  (by simpa using h1) (by simpa using h2)
              have h := ih wr (i + 1) j' hlen' hl' hv' hbefore'
              constructor
              · have harr : i + 1 + j' = i + (j' + 1) := by omega
                rw [← harr]
                simpa [setChain, h0] using h.1
              · simpa [setChain, h0, List.take_succ_cons, List.drop_succ_cons]
                  using h.2

/-- C10: when the outer count matches the layer count, the inner vectors are
handed to the layers strictly in pipeline order; if layer j is the first to
reject its vector, set_parameters stops with that layer's error, so layers
0..j-1 keep the newly set values and layers j..L-1 their old ones — the
operation performs no rollback and is not atomic. -/
theorem C10_set_parameters_no_rollback (net : Network) (vs : List (List Int))
    (j : Nat) (l : Layer) (v : List Int)
    (hlen : vs.length = net.num_layers)
    (hl : net.layers[j]? = some l) (hv : vs[j]? = some v)
    (hrej : l.base.accepts v = false)
    (hbefore : ∀ (k : Nat), k < j → ∀ (l' : Layer) (v' : List Int),
      net.layers[k]? = some l' → vs[k]? = some v' →
      l'.base.accepts v' = true) :
    (net.set_parameters vs).2 = some (Err.LayerReject j) ∧
    ((net.set_parameters vs).1).get_parameters =
      vs.take j ++ net.get_parameters.drop j := by
  unfold Network.set_parameters
  rw [if_pos hlen]
  have h := setChain_first_reject net.layers vs 0 j
    (by simpa [Network.num_layers] using hlen) l v hl hv hrej hbefore
  constructor
  · simpa using h.1
  · simpa [Network.get_parameters] using h.2

theorem C10_set_parameters_no_rollback_witness :
    (Network.set_parameters wNet [[7, 8], [9]]).2 = some (Err.LayerReject 1) ∧
    ((Network.set_parameters wNet [[7, 8], [9]]).1).get_parameters =
      ([[7, 8], [9]] : List (List Int)).take 1 ++ wNet.get_parameters.drop 1 :=
  C10_set_parameters_no_rollback wNet [[7, 8], [9]] 1 (wLayer 3 2) [9]
    rfl (by simp [wNet]) (by simp) (by decide)
    (by
      intro k hk l' v' h1 h2
      cases k with
      | zero =>
          simp [wNet] at h1
          simp at h2
          subst h1
          subst h2
          decide
      | succ k2 => omega)

/-- Invariant carried through the training loops: the pipeline's layer
contracts are fixed and the output head is present with a fixed contract;
only the mutable caches and parameters may differ. -/
def InvNet (bs0 : List LayerBase) (ob : OutputBase) (net : Network) : Prop :=
  bases net.layers = bs0 ∧ ∃ od, net.m_output = some od ∧ od.base = ob

theorem updChain_trace (ls : List Layer) (i : Nat) :
    (updChain ls i).2 = (List.range ls.length).map (fun j => Ev.upd (i + j)) := by
  induction ls generalizing i with
  | nil => rfl
  | cons l tl ih =>
      have hfun : ((fun j => Ev.upd (i + j)) ∘ Nat.succ) =
          (fun j => Ev.upd (i + 1 + j)) := by
        funext j
        simp only [Function.comp]
        congr 1
        omega
      simp only [updChain, ih, List.length_cons, List.range_succ_eq_map,
        List.map_cons, List.map_map, hfun, Nat.add_zero]

theorem updChain_bases (ls : List Layer) (i : Nat) :
    bases (updChain ls i).1 = bases ls := by
  induction ls generalizing i with
  | nil => rfl
  | cons l tl ih =>
      have h := ih (i + 1)
      simp only [bases, List.map_cons] at h ⊢
      simp [updChain, h]

theorem update_spec (net : Network) :
    (net.update).2 = updSpecTrace net.layers.length ∧
    bases (net.update).1.layers = bases net.layers := by
  constructor
  · unfold Network.update
    simp only [updChain_trace, updSpecTrace]
    simp
  · unfold Network.update
    simp only [updChain_bases]

theorem selectCols_rows (m : Mat) (b : List Nat) :
    (m.selectCols b).rows = m.rows := rfl

theorem batchLoop_spec (b0 : LayerBase) (bt : List LayerBase) (ob : OutputBase)
    (xbs ybs : List Mat) (i : Nat) (net : Network)
    (hinv : InvNet (b0 :: bt) ob net)
    (hx : ∀ bx ∈ xbs, bx.rows = b0.in_size)
    (hy : ∀ byM ∈ ybs, ob.checkTarget byM = true)
    (hlen : xbs.length = ybs.length) :
    (batchLoop net xbs ybs i).2 = (batchesSpecFrom (b0 :: bt) ob xbs ybs i, none) ∧
    InvNet (b0 :: bt) ob (batchLoop net xbs ybs i).1 := by
  induction xbs generalizing net ybs i with
  | nil =>
      cases ybs with
      | nil => exact ⟨rfl, hinv⟩
      | cons byM yr => simp at hlen
  | cons bx xr ih =>
      cases ybs with
      | nil => simp at hlen
      | cons byM yr =>
          obtain ⟨hbs, od, hod, hob⟩ := hinv
          obtain ⟨l0, tl, hnl⟩ : ∃ l0 tl, net.layers = l0 :: tl := by
            cases hc : net.layers with
            | nil => rw [hc] at hbs; cases hbs
            | cons a b => exact ⟨a, b, rfl⟩
          have hl0 : l0.base = b0 := by
            rw [hnl] at hbs
            simpa [bases] using congrArg List.head? hbs
          have hrow : bx.rows = l0.base.in_size := by
            rw [hl0]
            exact hx bx (by simp)
          have hf := forward_spec net bx l0 tl hnl hrow
          have hbases1 : bases (writeOuts net.layers (chainOuts (bases net.layers) bx)) =
              b0 :: bt := by
            rw [writeOuts_bases, hbs]
          have hne1 : writeOuts net.layers (chainOuts (bases net.layers) bx) ≠ [] := by
            intro hcon
            have := congrArg List.length hcon
            rw [writeOuts_length, hnl] at this
            simp at this
          have hcache1 : (writeOuts net.layers (chainOuts (bases net.layers) bx)).map
              (fun l => l.m_output) =
              chainOuts (bases (writeOuts net.layers (chainOuts (bases net.layers) bx))) bx := by
            rw [writeOuts_bases]
            exact writeOuts_m_output net.layers (chainOuts (bases net.layers) bx)
              (by rw [chainOuts_length]; simp [bases])
          have hchk : od.base.checkTarget byM = true := by
            rw [hob]
            exact hy byM (by simp)
          have hb := backprop_spec
            { net with layers := writeOuts net.layers (chainOuts (bases net.layers) bx) }
            od bx byM hne1 (by simpa using hod) (by simpa using hcache1) hchk
          obtain ⟨hbtr, hbbases, ⟨g, hbout⟩, hbrng⟩ := hb
          set net1 : Network :=
            { net with layers := writeOuts net.layers (chainOuts (bases net.layers) bx) }
            with hnet1
          have hbsplit : net1.backprop bx byM =
              ((net1.backprop bx byM).1,
                bpSpecTrace (bases net1.layers) od.base bx byM, none) := by
            rw [← hbtr]
          have hu := update_spec (net1.backprop bx byM).1
          have husplit : ((net1.backprop bx byM).1).update =
              ((((net1.backprop bx byM).1).update).1,
                updSpecTrace ((net1.backprop bx byM).1).layers.length) := by
            rw [← hu.1]
          have hinv3 : InvNet (b0 :: bt) ob (((net1.backprop bx byM).1).update).1 := by
            constructor
            · rw [hu.2, hbbases]
              simpa using hbases1
            · refine ⟨⟨od.base, g⟩, ?_, hob⟩
              have hmo : (((net1.backprop bx byM).1).update).1.m_output =
                  ((net1.backprop bx byM).1).m_output := by
                unfold Network.update
                rfl
              rw [hmo, hbout]
          have hlen3 : ((net1.backprop bx byM).1).layers.length = (b0 :: bt).length := by
            have h := congrArg List.length hbbases
            simp only [bases, List.length_map] at h
            rw [h]
            have h2 := congrArg List.length hbases1
            simpa [bases] using h2
          have hrec := ih yr (i + 1) (((net1.backprop bx byM).1).update).1 hinv3
            (fun bx2 h2 => hx bx2 (by simp [h2]))
            (fun by2 h2 => hy by2 (by simp [h2]))
            (by simpa using hlen)
          have ht := hrec.1
          have hbases1n : bases net1.layers = b0 :: bt := hbases1
          have hbob : od.base = ob := hob
          constructor
          · unfold batchLoop
            rw [hf]
            simp only []
            rw [hbsplit]
            simp only []
            rw [husplit]
            simp only []
            have htr : (batchLoop (((net1.backprop bx byM).1).update).1 xr yr (i + 1)).2.1 =
                batchesSpecFrom (b0 :: bt) ob xr yr (i + 1) := by rw [ht]
            have herr : (batchLoop (((net1.backprop bx byM).1).update).1 xr yr (i + 1)).2.2 =
                none := by rw [ht]
            simp [batchesSpecFrom, batchSpecEvs, hbs, hbases1n, hbob, hlen3, htr, herr,
              hbbases, writeOuts_bases]
          · unfold batchLoop
            rw [hf]
            simp only []
            rw [hbsplit]
            simp only []
            rw [husplit]
            simp only []
            exact hrec.2

theorem epochLoop_spec (b0 : LayerBase) (bt : List LayerBase) (ob : OutputBase)
    (xbs ybs : List Mat)
    (hx : ∀ bx ∈ xbs, bx.rows = b0.in_size)
    (hy : ∀ byM ∈ ybs, ob.checkTarget byM = true)
    (hlen : xbs.length = ybs.length) :
    ∀ (r k : Nat) (net : Network), InvNet (b0 :: bt) ob net →
    (epochLoop net xbs ybs k r).2 =
      ((List.range' k r).flatMap
        (fun k2 => Ev.cbEpochId k2 :: batchesSpecFrom (b0 :: bt) ob xbs ybs 0),
       none) ∧
    InvNet (b0 :: bt) ob (epochLoop net xbs ybs k r).1 := by
  intro r
  induction r with
  | zero =>
      intro k net hinv
      exact ⟨by simp [epochLoop], hinv⟩
  | succ r ih =>
      intro k net hinv
      have hb := batchLoop_spec b0 bt ob xbs ybs 0 net hinv hx hy hlen
      have hbsplit : batchLoop net xbs ybs 0 =
          ((batchLoop net xbs ybs 0).1,
            batchesSpecFrom (b0 :: bt) ob xbs ybs 0, none) := by
        rw [← hb.1]
      have hrec := ih (k + 1) (batchLoop net xbs ybs 0).1 hb.2
      have htr : (epochLoop (batchLoop net xbs ybs 0).1 xbs ybs (k + 1) r).2.1 =
          (List.range' (k + 1) r).flatMap
            (fun k2 => Ev.cbEpochId k2 :: batchesSpecFrom (b0 :: bt) ob xbs ybs 0) := by
        rw [hrec.1]
      have herr : (epochLoop (batchLoop net xbs ybs 0).1 xbs ybs (k + 1) r).2.2 =
          none := by
        rw [hrec.1]
      constructor
      · unfold epochLoop
        rw [hbsplit]
        simp only []
        simp [List.range'_succ, htr, herr]
      · unfold epochLoop
        rw [hbsplit]
        simp only []
        exact hrec.2

/-- Full characterization of fit's trace on a non-empty network whose shapes
and targets pass the checks: the trace is exactly the spec-side fitSpecEvs of
the mini-batches created once from the (possibly reseeded) randomness state,
and fit returns true with no error. -/
theorem fit_trace_spec (net : Network) (x y : Mat) (bsz epoch : Nat)
    (seed : Int) (l0 : Layer) (tl : List Layer) (out : OutputHead)
    (hl : net.layers = l0 :: tl) (hout : net.m_output = some out)
    (hx : x.rows = l0.base.in_size)
    (hy : ∀ t, out.base.checkTarget t = true) :
    (net.fit x y bsz epoch seed).2.1 =
      fitSpecEvs (bases net.layers) out.base
        (create_shuffled_batches x y bsz
          (if seed > 0 then Rng.mk seed.toNat else net.rng)).1
        (create_shuffled_batches x y bsz
          (if seed > 0 then Rng.mk seed.toNat else net.rng)).2.1 epoch ∧
    (net.fit x y bsz epoch seed).2.2.1 = none ∧
    (net.fit x y bsz epoch seed).2.2.2 = true := by
  have hb0 : bases net.layers = l0.base :: bases tl := by
    rw [hl]
    rfl
  set r1 := if seed > 0 then Rng.mk seed.toNat else net.rng with hr1
  set cb := create_shuffled_batches x y bsz r1 with hcb
  have hxmem : ∀ bx ∈ cb.1, bx.rows = l0.base.in_size := by
    intro bx hbx
    rw [hcb] at hbx
    unfold create_shuffled_batches at hbx
    simp only [List.mem_map] at hbx
    obtain ⟨b, _, hb⟩ := hbx
    rw [← hb, selectCols_rows, hx]
  have hymem : ∀ byM ∈ cb.2.1, out.base.checkTarget byM = true := fun byM _ => hy byM
  have hlen : cb.1.length = cb.2.1.length := by
    rw [hcb]
    unfold create_shuffled_batches
    simp
  have hinv0 : InvNet (l0.base :: bases tl) out.base { net with rng := cb.2.2.2 } := by
    refine ⟨?_, out, hout, rfl⟩
    simpa using hb0
  have hep := epochLoop_spec l0.base (bases tl) out.base cb.1 cb.2.1
    hxmem hymem hlen epoch 0 { net with rng := cb.2.2.2 } hinv0
  have hsplit : epochLoop { net with rng := cb.2.2.2 } cb.1 cb.2.1 0 epoch =
      ((epochLoop { net with rng := cb.2.2.2 } cb.1 cb.2.1 0 epoch).1,
        (List.range' 0 epoch).flatMap
          (fun k2 => Ev.cbEpochId k2 ::
            batchesSpecFrom (l0.base :: bases tl) out.base cb.1 cb.2.1 0),
        none) := by
    rw [← hep.1]
  unfold Network.fit
  rw [hl]
  simp only [← hr1, ← hcb]
  rw [hl] at hsplit
  rw [hsplit]
  simp only []
  refine ⟨?_, by trivial, by trivial⟩
  simp [fitSpecEvs, bases, List.range_eq_range']

/-- C4: on a non-empty network, fit first tells the Callback the batch count
and the epoch count, then for each epoch index k in 0..E-1 sets the
Callback's epoch index, and for each batch index i in 0..B-1 sets the
Callback's batch index and executes, in exactly this order per batch, the
pre-training hook, forward on the batch predictors, backprop on the batch
predictors and targets, the optimizer update over all layers, and the
post-training hook; after all epochs it returns the success indicator with no
error (the trace's shape is fitSpecEvs). -/
theorem C4_fit_training_loop (net : Network) (x y : Mat) (bsz epoch : Nat)
    (seed : Int) (l0 : Layer) (tl : List Layer) (out : OutputHead)
    (hl : net.layers = l0 :: tl) (hout : net.m_output = some out)
    (hx : x.rows = l0.base.in_size)
    (hy : ∀ t, out.base.checkTarget t = true) :
    (net.fit x y bsz epoch seed).2.1 =
      fitSpecEvs (bases net.layers) out.base
        (create_shuffled_batches x y bsz
          (if seed > 0 then Rng.mk seed.toNat else net.rng)).1
        (create_shuffled_batches x y bsz
          (if seed > 0 then Rng.mk seed.toNat else net.rng)).2.1 epoch ∧
    (net.fit x y bsz epoch seed).2.2.1 = none ∧
    (net.fit x y bsz epoch seed).2.2.2 = true :=
  fit_trace_spec net x y bsz epoch seed l0 tl out hl hout hx hy

/-- A concrete output head accepting every target, for the training-loop
witnesses. -/
def c3Out : OutputHead := ⟨⟨fun _ => true, fun p _ => p⟩, Mat.empty⟩

/-- A concrete two-layer network whose output head accepts every target. -/
def w2Net : Network := ⟨[wLayer 2 3, wLayer 3 2], some c3Out, ⟨1⟩⟩

/-- Concrete predictors: two observations of two features. -/
def xW : Mat := ⟨2, 2, [5, 6, 7, 8]⟩

/-- Concrete responses for the two observations. -/
def yW : Mat := ⟨2, 2, [1, 1, 2, 2]⟩

theorem C4_fit_training_loop_witness :
    (Network.fit w2Net xW yW 1 2 (-1)).2.1 =
      fitSpecEvs (bases w2Net.layers) c3Out.base
        (create_shuffled_batches xW yW 1
          (if (-1 : Int) > 0 then Rng.mk (Int.toNat (-1)) else w2Net.rng)).1
        (create_shuffled_batches xW yW 1
          (if (-1 : Int) > 0 then Rng.mk (Int.toNat (-1)) else w2Net.rng)).2.1 2 ∧
    (Network.fit w2Net xW yW 1 2 (-1)).2.2.1 = none ∧
    (Network.fit w2Net xW yW 1 2 (-1)).2.2.2 = true :=
  C4_fit_training_loop w2Net xW yW 1 2 (-1) (wLayer 2 3) [wLayer 3 2] c3Out
    rfl rfl rfl (fun _ => rfl)

/-- C6: fit on a zero-layer network returns the failure indicator with no
error and an empty trace — the Callback is never touched in any way — and
this empty-pipeline case is the only way fit returns the failure
indicator. -/
theorem C6_fit_empty_pipeline (net : Network) (x y : Mat) (bsz epoch : Nat)
    (seed : Int) :
    (net.layers = [] → net.fit x y bsz epoch seed = (net, [], none, false)) ∧
    (((net.fit x y bsz epoch seed).2.2.1 = none ∧
      (net.fit x y bsz epoch seed).2.2.2 = false) ↔ net.layers = []) := by
  have hemp : net.layers = [] → net.fit x y bsz epoch seed = (net, [], none, false) := by
    intro h
    unfold Network.fit
    rw [h]
  refine ⟨hemp, ?_, ?_⟩
  · rintro ⟨h1, h2⟩
    cases hnl : net.layers with
    | nil => rfl
    | cons a b =>
        exfalso
        have hok : (net.fit x y bsz epoch seed).2.2.2 = true := by
          unfold Network.fit
          rw [hnl]
        rw [hok] at h2
        cases h2
  · intro h
    rw [hemp h]
    exact ⟨rfl, rfl⟩

theorem C6_fit_empty_pipeline_witness :
    (Network.fit ⟨[], none, ⟨1⟩⟩ xW yW 1 2 (-1) =
      (⟨[], none, ⟨1⟩⟩, [], none, false)) ∧
    (((Network.fit ⟨[], none, ⟨1⟩⟩ xW yW 1 2 (-1)).2.2.1 = none ∧
      (Network.fit ⟨[], none, ⟨1⟩⟩ xW yW 1 2 (-1)).2.2.2 = false) ↔
      Network.layers ⟨[], none, ⟨1⟩⟩ = []) :=
  ⟨(C6_fit_empty_pipeline ⟨[], none, ⟨1⟩⟩ xW yW 1 2 (-1)).1 rfl,
   (C6_fit_empty_pipeline ⟨[], none, ⟨1⟩⟩ xW yW 1 2 (-1)).2⟩

theorem preXArgs_append (a b : List Ev) :
    preXArgs (a ++ b) = preXArgs a ++ preXArgs b := by
  simp [preXArgs]

theorem preXArgs_cons_batchId (i : Nat) (t : List Ev) :
    preXArgs (Ev.cbBatchId i :: t) = preXArgs t := rfl

theorem preXArgs_cons_pre (bx byM : Mat) (t : List Ev) :
    preXArgs (Ev.cbPre bx byM :: t) = bx :: preXArgs t := rfl

theorem preXArgs_cons_post (bx byM : Mat) (t : List Ev) :
    preXArgs (Ev.cbPost bx byM :: t) = preXArgs t := rfl

theorem preXArgs_cons_epochId (k : Nat) (t : List Ev) :
    preXArgs (Ev.cbEpochId k :: t) = preXArgs t := rfl

theorem preXArgs_cons_fwd (i : Nat) (x : Mat) (t : List Ev) :
    preXArgs (Ev.fwd i x :: t) = preXArgs t := rfl

theorem preXArgs_cons_bp (i : Nat) (p g : Mat) (t : List Ev) :
    preXArgs (Ev.bp i p g :: t) = preXArgs t := rfl

theorem preXArgs_cons_outCheck (m : Mat) (t : List Ev) :
    preXArgs (Ev.outCheck m :: t) = preXArgs t := rfl

theorem preXArgs_cons_outEval (p m : Mat) (t : List Ev) :
    preXArgs (Ev.outEval p m :: t) = preXArgs t := rfl

theorem preXArgs_fwdTraceFrom (bs : List LayerBase) (x : Mat) (i : Nat) :
    preXArgs (fwdTraceFrom bs x i) = [] := by
  induction bs generalizing x i with
  | nil => rfl
  | cons b rest ih =>
      rw [show fwdTraceFrom (b :: rest) x i =
        Ev.fwd i x :: fwdTraceFrom rest (b.fwd x) (i + 1) from rfl]
      rw [preXArgs_cons_fwd, ih]

theorem preXArgs_bpTraceFrom (bs : List LayerBase) (os : List Mat)
    (g input : Mat) (idx : Nat) :
    preXArgs (bpTraceFrom bs os g input idx) = [] := by
  induction bs generalizing os g idx with
  | nil => rfl
  | cons b brest ih =>
      cases brest with
      | nil => rfl
      | cons b2 brest2 =>
          cases os with
          | nil => rfl
          | cons o orest =>
              cases orest with
              | nil => rfl
              | cons o2 orest2 =>
                  rw [show bpTraceFrom (b :: b2 :: brest2) (o :: o2 :: orest2)
                      g input idx =
                    Ev.bp idx o2 g :: bpTraceFrom (b2 :: brest2) (o2 :: orest2)
                      (b.bwd o2 g) input (idx - 1) from rfl]
                  rw [preXArgs_cons_bp, ih]

theorem preXArgs_bpSpecTrace (bs : List LayerBase) (ob : OutputBase)
    (input target : Mat) :
    preXArgs (bpSpecTrace bs ob input target) = [] := by
  simp only [bpSpecTrace, preXArgs_cons_outCheck, preXArgs_cons_outEval]
  exact preXArgs_bpTraceFrom _ _ _ _ _

theorem preXArgs_updMap (l : List Nat) : preXArgs (l.map Ev.upd) = [] := by
  induction l with
  | nil => rfl
  | cons a t ih => simp [preXArgs]

theorem preXArgs_batchSpecEvs (bs : List LayerBase) (ob : OutputBase)
    (bx byM : Mat) (i : Nat) :
    preXArgs (batchSpecEvs bs ob bx byM i) = [bx] := by
  simp only [batchSpecEvs, preXArgs_cons_batchId, preXArgs_cons_pre,
    preXArgs_append, preXArgs_bpSpecTrace]
  rw [show preXArgs (fwdSpecTrace bs bx) = [] from preXArgs_fwdTraceFrom bs bx 0]
  rw [show preXArgs (updSpecTrace bs.length) = [] from
    preXArgs_updMap (List.range bs.length)]
  rfl

theorem preXArgs_batchesSpecFrom (bs : List LayerBase) (ob : OutputBase)
    (xbs ybs : List Mat) (i : Nat) (hlen : xbs.length = ybs.length) :
    preXArgs (batchesSpecFrom bs ob xbs ybs i) = xbs := by
  induction xbs generalizing ybs i with
  | nil => rfl
  | cons bx xr ih =>
      cases ybs with
      | nil => simp at hlen
      | cons byM yr =>
          rw [show batchesSpecFrom bs ob (bx :: xr) (byM :: yr) i =
            batchSpecEvs bs ob bx byM i ++ batchesSpecFrom bs ob xr yr (i + 1)
            from rfl]
          rw [preXArgs_append, preXArgs_batchSpecEvs,
            ih yr (i + 1) (by simpa using hlen)]
          rfl

theorem preXArgs_fitSpecEvs (bs : List LayerBase) (ob : OutputBase)
    (xbs ybs : List Mat) (epoch : Nat) (hlen : xbs.length = ybs.length) :
    preXArgs (fitSpecEvs bs ob xbs ybs epoch) =
      (List.range epoch).flatMap (fun _ => xbs) := by
  have hk : ∀ ks : List Nat,
      preXArgs (ks.flatMap
        (fun k => Ev.cbEpochId k :: batchesSpecFrom bs ob xbs ybs 0)) =
      ks.flatMap (fun _ => xbs) := by
    intro ks
    induction ks with
    | nil => rfl
    | cons k kt ih =>
        simp only [List.flatMap_cons, preXArgs_append, preXArgs_cons_epochId,
          preXArgs_batchesSpecFrom bs ob xbs ybs 0 hlen, ih]
  show preXArgs (Ev.optReset :: Ev.cbNBatch xbs.length :: Ev.cbNEpoch epoch :: _) = _
  rw [show preXArgs (Ev.optReset :: Ev.cbNBatch xbs.length :: Ev.cbNEpoch epoch ::
      (List.range epoch).flatMap
        (fun k => Ev.cbEpochId k :: batchesSpecFrom bs ob xbs ybs 0)) =
    preXArgs ((List.range epoch).flatMap
        (fun k => Ev.cbEpochId k :: batchesSpecFrom bs ob xbs ybs 0)) from rfl]
  exact hk (List.range epoch)

/-- C3 (amended): during fit the mini-batch partition is produced exactly
once per call, before the epoch loop, from the current randomness state
(reseeded first when seed > 0); every epoch of a multi-epoch fit call then
trains on that same partition — the batch composition of later epochs is the
first epoch's, not a re-derivation from the advanced randomness state. -/
theorem C3_batches_created_once (net : Network) (x y : Mat) (bsz epoch : Nat)
    (seed : Int) (l0 : Layer) (tl : List Layer) (out : OutputHead)
    (hl : net.layers = l0 :: tl) (hout : net.m_output = some out)
    (hx : x.rows = l0.base.in_size)
    (hy : ∀ t, out.base.checkTarget t = true) :
    preXArgs (net.fit x y bsz epoch seed).2.1 =
      (List.range epoch).flatMap (fun _ =>
        (create_shuffled_batches x y bsz
          (if seed > 0 then Rng.mk seed.toNat else net.rng)).1) := by
  have h := fit_trace_spec net x y bsz epoch seed l0 tl out hl hout hx hy
  rw [h.1]
  exact preXArgs_fitSpecEvs _ _ _ _ epoch
    (by unfold create_shuffled_batches; simp)

theorem C3_batches_created_once_witness :
    preXArgs (Network.fit w2Net xW yW 1 2 (-1)).2.1 =
      (List.range 2).flatMap (fun _ =>
        (create_shuffled_batches xW yW 1
          (if (-1 : Int) > 0 then Rng.mk (Int.toNat (-1)) else w2Net.rng)).1) :=
  C3_batches_created_once w2Net xW yW 1 2 (-1) (wLayer 2 3) [wLayer 3 2] c3Out
    rfl rfl rfl (fun _ => rfl)

/-- A concrete identity layer of width one for the batch-reuse
counterexample. -/
def c3Layer : Layer :=
  ⟨⟨1, 1, fun m => m, fun _ g => g, fun p => p, fun _ => true⟩,
   Mat.empty, Mat.empty, []⟩

/-- A concrete one-layer network with randomness state 1. -/
def c3Net : Network := ⟨[c3Layer], some c3Out, ⟨1⟩⟩

/-- Two one-feature observations with distinct values. -/
def x3 : Mat := ⟨1, 2, [10, 20]⟩

/-- Responses for the two observations. -/
def y3 : Mat := ⟨1, 2, [0, 0]⟩

/-- C3 counterexample: in a two-epoch fit without a fixed seed, the second
epoch's pre-training-hook batch arguments are exactly the first epoch's
(positions 3 and 4 repeat positions 1 and 2), while re-deriving the
partition from the randomness state as advanced by the first creation gives
a different batch list — so the batch composition is not produced fresh at
the start of each epoch. -/
theorem C3_counterexample :
    preXArgs (Network.fit c3Net x3 y3 1 2 (-1)).2.1 =
      [⟨1, 1, [10]⟩, ⟨1, 1, [20]⟩, ⟨1, 1, [10]⟩, ⟨1, 1, [20]⟩] ∧
    (create_shuffled_batches x3 y3 1
      (create_shuffled_batches x3 y3 1 ⟨1⟩).2.2.2).1 ≠
      [⟨1, 1, [10]⟩, ⟨1, 1, [20]⟩] := by
  constructor
  · decide
  · decide
